import Mathlib

/-!
Shallow embedding of vulnix's driver (`src/vulnix/main.py`) together with a
spec-modelled version comparator, and proofs of the specification claims.

The Python collaborators that are not part of the repository snapshot
(`Store`, `NVD`, `Whitelist`) are abstracted as explicit parameters; the
control flow of `main.py` itself (`run`, `output_json`, `populate_store`
sequencing, exit codes, the `RuntimeError` handler) is transcribed faithfully.
-/

namespace Vulnix

/-- Runtime errors are identified by their message string. -/
abbrev RtError := String

/-- A derivation as seen by `main.py`: the fields it reads are `name`,
`pname`, `version`, `store_path`, `affected_by` and the `is_affected`
property. `affected_by` is the set of vulnerability ids, kept as a list. -/
structure Derivation where
  name : String
  pname : String
  version : String
  store_path : String
  affected_by : List String
deriving DecidableEq

/-- Modelled from the spec: `derivation.is_affected` lives in the absent
`derivation` module; per the spec, MatchEngine returns "the subset with
non-empty `affectedBy`", so a derivation is affected iff `affected_by` is
non-empty. -/
def Derivation.is_affected (d : Derivation) : Bool :=
  !d.affected_by.isEmpty

/-- Modelled from the spec: a masked (suppressed) finding as produced by
`whitelist.filter` (absent `whitelist` module); `main.py` accesses its
`deriv` attribute. -/
structure Masked where
  deriv : Derivation
deriving DecidableEq

/-- One insertion step of a Python `dict`: an existing key keeps its
position but gets the new value; a new key is appended at the end. -/
def dictInsert (k : String) (v : Derivation) :
    List (String × Derivation) → List (String × Derivation)
  | [] => [(k, v)]
  | (k', v') :: rest =>
      if k' = k then (k', v) :: rest else (k', v') :: dictInsert k v rest

/-- The values of a Python `dict` in key-insertion order. -/
def dictValues (l : List (String × Derivation)) : List Derivation :=
  l.map Prod.snd

/-- The dict comprehension of `run`: insert every derivation of `affected`
keyed by its `name`, in iteration order. -/
def dictOfNames (affected : List Derivation) : List (String × Derivation) :=
  affected.foldl (fun acc d => dictInsert d.name d acc) []

/-- The loop of `run` in `main.py`: check every derivation of the store in
iteration order and collect the affected ones. `checkE` is the external
`derivation.check(nvd)` call, which may raise a `RuntimeError`. -/
def collectAffected (checkE : Derivation → Except RtError Derivation) :
    List Derivation → Except RtError (List Derivation)
  | [] => .ok []
  | d :: rest =>
      match checkE d with
      | .error e => .error e
      | .ok d' =>
          match collectAffected checkE rest with
          | .error e => .error e
          | .ok tail => .ok (if d'.is_affected then d' :: tail else tail)

/-- The function `run(nvd, store)` of `main.py`: check every derivation,
keep the affected ones, then weed out duplicates through a dict keyed by
`name` and return its values. -/
def run (checkE : Derivation → Except RtError Derivation)
    (derivs : List Derivation) : Except RtError (List Derivation) :=
  match collectAffected checkE derivs with
  | .error e => .error e
  | .ok affected => .ok (dictValues (dictOfNames affected))

/-- One JSON record of `output_json`. The `derivation` field holds the
store path, as in the source. -/
structure Record where
  name : String
  pname : String
  version : String
  derivation : String
  affected_by : List String
deriving DecidableEq

/-- Python `sorted` on strings (ascending, by code points). -/
def sortStrings (l : List String) : List String :=
  l.mergeSort (fun a b => decide (a ≤ b))

/-- Python `sorted(derivations, key=lambda k: k.pname)`: a stable sort
by `pname`. -/
def sortByPname (l : List Derivation) : List Derivation :=
  l.mergeSort (fun a b => decide (a.pname ≤ b.pname))

/-- The function `output_json` of `main.py`: raises a `RuntimeError` when
`show_whitelisted` is requested, otherwise emits one record per derivation,
sorted by `pname`, with the `affected_by` ids sorted. -/
def output_json (derivations : List Derivation) (show_whitelisted : Bool) :
    Except RtError (List Record) :=
  if show_whitelisted then
    .error "--show-whitelisted does currently not support JSON mode"
  else
    .ok ((sortByPname derivations).map (fun d =>
      { name := d.name
        pname := d.pname
        version := d.version
        derivation := d.store_path
        affected_by := sortStrings d.affected_by }))

/-- The behaviour of the external collaborators of `main.py` for one
invocation: the whitelist engine (type `W`, sources of type `S`), the nix
store and the NVD. Every step that runs inside the `try` block may raise
a `RuntimeError`, modelled with `Except RtError`. -/
structure Env (W S : Type) where
  emptyWl : W
  loadWl : S → Except RtError W
  mergeWl : W → W → Except RtError W
  filterWl : W → List Derivation → Except RtError (List Derivation × List Masked)
  addFrom : W → Derivation → W
  serializeWl : W → String
  storeDerivs : Except RtError (List Derivation)
  nvdUpdate : Except RtError Unit
  checkDrv : Derivation → Except RtError Derivation

/-- The command-line options of `main` that drive its control flow. -/
structure Opts (S : Type) where
  gc_roots : Bool
  system : Bool
  path : List String
  whitelistSources : List S
  write_whitelist : Bool
  json : Bool
  show_whitelisted : Bool
  version : Bool
  verbose : Nat

/-- Observable outcome of a `main` invocation that terminated via
`sys.exit`: the exit code, which messages were printed, which pipeline
stages completed, and the side effects performed. -/
structure Outcome where
  exitCode : Nat
  versionShown : Bool := false
  usageShown : Bool := false
  whitelistLoaded : Bool := false
  storePopulated : Bool := false
  nvdUpdated : Bool := false
  jsonRecords : Option (List Record) := none
  humanShown : Bool := false
  addFromCalls : List Derivation := []
  writtenWhitelist : Option String := none
  criticalLogged : Option RtError := none
deriving DecidableEq

/-- Result of a `main` invocation: either a normal `sys.exit` (possibly
after catching a `RuntimeError`), or a `RuntimeError` that escaped the
handler and would surface a stack trace to the user. -/
inductive MainResult
  | exited (o : Outcome)
  | uncaught (e : RtError)
deriving DecidableEq

/-- The `except RuntimeError` handler of `main`: log the message at
critical severity and exit with code 2. The flags record which stages had
already completed when the error was raised. -/
def caught (e : RtError) (wlLoaded storeDone nvdDone : Bool) : Outcome :=
  { exitCode := 2
    whitelistLoaded := wlLoaded
    storePopulated := storeDone
    nvdUpdated := nvdDone
    criticalLogged := some e }

/-- The whitelist-loading loop of `main`: merge each loaded source into
the accumulated whitelist, propagating any `RuntimeError`. -/
def loadAllFrom {W S : Type} (env : Env W S) (wl : W) :
    List S → Except RtError W
  | [] => .ok wl
  | s :: rest =>
      match env.loadWl s with
      | .error e => .error e
      | .ok other =>
          match env.mergeWl wl other with
          | .error e => .error e
          | .ok wl2 => loadAllFrom env wl2 rest

/-- `whitelist = Whitelist(); for wl in wh_sources: whitelist.merge(...)`. -/
def loadAll {W S : Type} (env : Env W S) (srcs : List S) : Except RtError W :=
  loadAllFrom env env.emptyWl srcs

/-- The output step of `main`: `output_json` in JSON mode (which may
raise), the human-readable `output` otherwise. Returns the emitted JSON
records, if any. -/
def outputStep {S : Type} (o : Opts S) (affected : List Derivation)
    (show_whitelisted : Bool) : Except RtError (Option (List Record)) :=
  if o.json then
    match output_json affected show_whitelisted with
    | .error e => .error e
    | .ok recs => .ok (some recs)
  else
    .ok none

/-- The exit-code selection at the end of `main`:
`if len(affected): sys.exit(2) elif len(masked): sys.exit(1); sys.exit(0)`. -/
def exitFor (affected : List Derivation) (masked : List Masked) : Nat :=
  if affected.length ≠ 0 then 2 else if masked.length ≠ 0 then 1 else 0

/-- The function `main` of `main.py`: version flag, no-target check, then
the `try` block (whitelist loading, store population, NVD update, scan,
filter, output, whitelist writing, exit-code selection) with the
`RuntimeError` handler around it. -/
def mainModel {W S : Type} (env : Env W S) (o : Opts S) : MainResult :=
  if o.version then
    .exited { exitCode := 0, versionShown := true }
  else if !o.gc_roots && !o.system && o.path.isEmpty then
    .exited { exitCode := 3, usageShown := true }
  else
    match loadAll env o.whitelistSources with
    | .error e => .exited (caught e false false false)
    | .ok wl =>
      match env.storeDerivs with
      | .error e => .exited (caught e true false false)
      | .ok derivs =>
        match env.nvdUpdate with
        | .error e => .exited (caught e true true false)
        | .ok _ =>
          match run env.checkDrv derivs with
          | .error e => .exited (caught e true true true)
          | .ok scanned =>
            match env.filterWl wl scanned with
            | .error e => .exited (caught e true true true)
            | .ok (affected, masked) =>
              match outputStep o affected o.show_whitelisted with
              | .error e => .exited (caught e true true true)
              | .ok jsonOut =>
                let wl2 := if o.write_whitelist then
                    affected.foldl env.addFrom wl else wl
                .exited { exitCode := exitFor affected masked
                          whitelistLoaded := true
                          storePopulated := true
                          nvdUpdated := true
                          jsonRecords := jsonOut
                          humanShown := !o.json
                          addFromCalls :=
                            if o.write_whitelist then affected else []
                          writtenWhitelist :=
                            if o.write_whitelist then
                              some (env.serializeWl wl2) else none }

/-- A run on which the whole pipeline inside the `try` block succeeds
without raising a `RuntimeError`. -/
def scanSucceeds {W S : Type} (env : Env W S) (o : Opts S) : Prop :=
  ∃ wl derivs scanned affected masked jsonOut,
    loadAll env o.whitelistSources = .ok wl ∧
    env.storeDerivs = .ok derivs ∧
    env.nvdUpdate = .ok () ∧
    run env.checkDrv derivs = .ok scanned ∧
    env.filterWl wl scanned = .ok (affected, masked) ∧
    outputStep o affected o.show_whitelisted = .ok jsonOut

/-- Modelled from the spec: VersionMatcher is not under `src/`. A version
component is a numeric run (compared numerically) or an alphabetic run
(compared lexicographically, kept as the list of character codes). -/
inductive VComp
  | num (n : Nat)
  | alpha (s : List Nat)
deriving DecidableEq

/-- Lexicographic comparison of two alphabetic runs (lists of character
codes); a proper prefix is smaller. -/
def cmpNatList : List Nat → List Nat → Ordering
  | [], [] => .eq
  | [], _ :: _ => .lt
  | _ :: _, [] => .gt
  | a :: as, b :: bs =>
      match compare a b with
      | .eq => cmpNatList as bs
      | o => o

/-- Modelled from the spec: comparison of single components. Numeric runs
compare numerically, alphabetic runs lexicographically; an alphabetic run
(pre-release suffix) is a lower-valued component than any numeric run. -/
def VComp.cmp : VComp → VComp → Ordering
  | .num a, .num b => compare a b
  | .alpha a, .alpha b => cmpNatList a b
  | .alpha _, .num _ => .lt
  | .num _, .alpha _ => .gt

/-- Comparison of the empty component list against a remaining suffix: a
missing trailing component is treated as the numeric component 0. -/
def cmpNil : List VComp → Ordering
  | [] => .eq
  | y :: ys =>
      match (VComp.num 0).cmp y with
      | .eq => cmpNil ys
      | o => o

/-- Modelled from the spec: componentwise version comparison. Components
compare pairwise; when one version runs out of components, its missing
trailing components are treated as the numeric component 0, so a missing
trailing numeric component is zero ("1.2" == "1.2.0") while a trailing
alphabetic (pre-release) suffix sorts below the bare version
("1.2-rc1" < "1.2"). -/
def cmpComponents : List VComp → List VComp → Ordering
  | [], b => cmpNil b
  | x :: xs, [] =>
      match x.cmp (VComp.num 0) with
      | .eq => cmpComponents xs []
      | o => o
  | x :: xs, y :: ys =>
      match x.cmp y with
      | .eq => cmpComponents xs ys
      | o => o

/-- Head of a component list, a missing component being numeric 0. -/
def hd0 : List VComp → VComp
  | [] => .num 0
  | x :: _ => x

/-- Tail of a component list, the empty list staying empty. -/
def tl0 : List VComp → List VComp
  | [] => []
  | _ :: xs => xs

/-- Flush the run currently being accumulated by the tokenizer. -/
def flushRun : Option (Nat ⊕ List Nat) → List VComp
  | none => []
  | some (.inl n) => [.num n]
  | some (.inr cs) => [.alpha cs.reverse]

/-- Modelled from the spec: split a version string into alternating
numeric and alphabetic runs, any other character acting as a separator.
The second argument accumulates the run in progress (digits as the value
so far, letters in reverse order). -/
def tokGo : List Char → Option (Nat ⊕ List Nat) → List VComp
  | [], cur => flushRun cur
  | c :: cs, cur =>
      if c.isDigit then
        match cur with
        | some (.inl n) => tokGo cs (some (.inl (n * 10 + (c.toNat - 48))))
        | _ => flushRun cur ++ tokGo cs (some (.inl (c.toNat - 48)))
      else if c.isAlpha then
        match cur with
        | some (.inr l) => tokGo cs (some (.inr (c.toNat :: l)))
        | _ => flushRun cur ++ tokGo cs (some (.inr [c.toNat]))
      else
        flushRun cur ++ tokGo cs none

/-- Modelled from the spec: tokenize a version string into components. -/
def tokenize (s : String) : List VComp :=
  tokGo s.data none

/-- Modelled from the spec: `VersionMatcher.compare` on version strings,
returning `Ordering.lt`, `Ordering.eq` or `Ordering.gt`. -/
def compareVersion (a b : String) : Ordering :=
  cmpComponents (tokenize a) (tokenize b)

/-- Sample derivation: an affected openssl build. -/
def dA : Derivation :=
  { name := "openssl-1.0.1a"
    pname := "openssl"
    version := "1.0.1a"
    store_path := "/nix/store/aaa-openssl-1.0.1a"
    affected_by := ["CVE-2014-0160", "CVE-2014-0076"] }

/-- Sample derivation: same `name` as `dA` but a different store path. -/
def dB : Derivation :=
  { name := "openssl-1.0.1a"
    pname := "openssl"
    version := "1.0.1a"
    store_path := "/nix/store/bbb-openssl-1.0.1a"
    affected_by := ["CVE-2014-0160"] }

/-- Sample derivation: an unaffected bash build. -/
def dC : Derivation :=
  { name := "bash-4.4"
    pname := "bash"
    version := "4.4"
    store_path := "/nix/store/ccc-bash-4.4"
    affected_by := [] }

/-- A concrete, fully successful collaborator environment (whitelists are
mere counters, sources are numbers). -/
def natEnv : Env Nat Nat :=
  { emptyWl := 0
    loadWl := fun _ => .ok 0
    mergeWl := fun a b => .ok (a + b)
    filterWl := fun _ ds => .ok (ds, [])
    addFrom := fun w _ => w + 1
    serializeWl := fun w => toString w
    storeDerivs := .ok [dA, dC]
    nvdUpdate := .ok ()
    checkDrv := fun d => .ok d }

/-- The environment `natEnv` with a store population that raises a
`RuntimeError`. -/
def envStoreFail : Env Nat Nat :=
  { natEnv with storeDerivs := .error "store failure" }

/-- Options: scan the current system, human-readable output. -/
def optsScan : Opts Nat :=
  { gc_roots := false
    system := true
    path := []
    whitelistSources := []
    write_whitelist := false
    json := false
    show_whitelisted := false
    version := false
    verbose := 0 }

/-- Options: JSON output combined with `--show-whitelisted`. -/
def optsJsonShow : Opts Nat :=
  { optsScan with json := true, show_whitelisted := true }

/-- Options: no scan target at all. -/
def optsNoTarget : Opts Nat :=
  { optsScan with system := false }

/-- Options: `--version` and no scan target. -/
def optsVersion : Opts Nat :=
  { optsScan with system := false, version := true }

/-- Options: scan the system and write the whitelist. -/
def optsWrite : Opts Nat :=
  { optsScan with write_whitelist := true }

theorem mem_collectAffected {checkE : Derivation → Except RtError Derivation}
    {derivs aff : List Derivation}
    (h : collectAffected checkE derivs = .ok aff) :
    ∀ d ∈ aff, d.is_affected = true ∧ ∃ s ∈ derivs, checkE s = .ok d := by
  induction derivs generalizing aff with
  | nil =>
    simp only [collectAffected, Except.ok.injEq] at h
    subst h
    simp
  | cons x rest ih =>
    simp only [collectAffected] at h
    cases hc : checkE x with
    | error e => rw [hc] at h; simp at h
    | ok d' =>
      rw [hc] at h
      cases hr : collectAffected checkE rest with
      | error e => rw [hr] at h; simp at h
      | ok tail =>
        rw [hr] at h
        simp only [Except.ok.injEq] at h
        subst h
        intro d hd
        by_cases ha : d'.is_affected = true
        · simp only [ha, if_true] at hd
          rcases List.mem_cons.mp hd with rfl | hmem
          · exact ⟨ha, x, List.mem_cons_self _ _, hc⟩
          · obtain ⟨haff, s, hs, hcs⟩ := ih hr d hmem
            exact ⟨haff, s, List.mem_cons_of_mem _ hs, hcs⟩
        · simp only [ha, if_false] at hd
          obtain ⟨haff, s, hs, hcs⟩ := ih hr d hd
          exact ⟨haff, s, List.mem_cons_of_mem _ hs, hcs⟩

theorem collectAffected_checks {checkE : Derivation → Except RtError Derivation}
    {derivs aff : List Derivation}
    (h : collectAffected checkE derivs = .ok aff) :
    ∀ s ∈ derivs, ∃ d', checkE s = .ok d' := by
  induction derivs generalizing aff with
  | nil => simp
  | cons x rest ih =>
    simp only [collectAffected] at h
    cases hc : checkE x with
    | error e => rw [hc] at h; simp at h
    | ok d' =>
      rw [hc] at h
      cases hr : collectAffected checkE rest with
      | error e => rw [hr] at h; simp at h
      | ok tail =>
        intro s hs
        rcases List.mem_cons.mp hs with rfl | hmem
        · exact ⟨d', hc⟩
        · exact ih hr s hmem

theorem collectAffected_complete {checkE : Derivation → Except RtError Derivation}
    {derivs aff : List Derivation}
    (h : collectAffected checkE derivs = .ok aff) :
    ∀ s ∈ derivs, ∀ d', checkE s = .ok d' → d'.is_affected = true → d' ∈ aff := by
  induction derivs generalizing aff with
  | nil => simp
  | cons x rest ih =>
    simp only [collectAffected] at h
    cases hc : checkE x with
    | error e => rw [hc] at h; simp at h
    | ok dx =>
      rw [hc] at h
      cases hr : collectAffected checkE rest with
      | error e => rw [hr] at h; simp at h
      | ok tail =>
        rw [hr] at h
        simp only [Except.ok.injEq] at h
        subst h
        intro s hs d' hcs ha
        rcases List.mem_cons.mp hs with rfl | hmem
        · rw [hc] at hcs
          cases hcs
          simp [ha]
        · have htail : d' ∈ tail := ih hr s hmem d' hcs ha
          by_cases hax : dx.is_affected = true
          · simp only [hax, if_true]
            exact List.mem_cons_of_mem _ htail
          · simpa [hax] using htail

theorem mem_keys_dictInsert {k' k : String} {v : Derivation}
    {l : List (String × Derivation)} :
    k' ∈ (dictInsert k v l).map Prod.fst ↔ k' = k ∨ k' ∈ l.map Prod.fst := by
  induction l with
  | nil => simp [dictInsert]
  | cons p rest ih =>
    obtain ⟨pk, pv⟩ := p
    by_cases hk : pk = k
    · subst hk
      simp [dictInsert]
    · simp [dictInsert, hk, ih]
      tauto

theorem nodup_keys_dictInsert {k : String} {v : Derivation}
    {l : List (String × Derivation)} (h : (l.map Prod.fst).Nodup) :
    ((dictInsert k v l).map Prod.fst).Nodup := by
  induction l with
  | nil => simp [dictInsert]
  | cons p rest ih =>
    obtain ⟨pk, pv⟩ := p
    simp only [List.map_cons, List.nodup_cons] at h
    by_cases hk : pk = k
    · subst hk
      simpa [dictInsert] using h
    · simp only [dictInsert, hk, if_false, List.map_cons, List.nodup_cons]
      refine ⟨fun hmem => ?_, ih h.2⟩
      rcases mem_keys_dictInsert.mp hmem with rfl | hmem'
      · exact hk rfl
      · exact h.1 hmem'

theorem mem_dictInsert {p : String × Derivation} {k : String} {v : Derivation}
    {l : List (String × Derivation)} (h : p ∈ dictInsert k v l) :
    p = (k, v) ∨ p ∈ l := by
  induction l with
  | nil => simpa [dictInsert] using h
  | cons q rest ih =>
    obtain ⟨qk, qv⟩ := q
    by_cases hk : qk = k
    · subst hk
      rcases List.mem_cons.mp (by simpa [dictInsert] using h) with rfl | hmem
      · exact Or.inl rfl
      · exact Or.inr (List.mem_cons_of_mem _ hmem)
    · simp only [dictInsert, hk, if_false] at h
      rcases List.mem_cons.mp h with rfl | hmem
      · exact Or.inr (List.mem_cons_self _ _)
      · rcases ih hmem with h' | h'
        · exact Or.inl h'
        · exact Or.inr (List.mem_cons_of_mem _ h')

theorem names_dictInsert {k : String} {v : Derivation}
    {l : List (String × Derivation)} (hv : v.name = k)
    (hl : ∀ p ∈ l, (Prod.snd p).name = p.1) :
    ∀ p ∈ dictInsert k v l, (Prod.snd p).name = p.1 := by
  intro p hp
  rcases mem_dictInsert hp with rfl | hmem
  · exact hv
  · exact hl p hmem

theorem foldl_dictInsert_nodup :
    ∀ (aff : List Derivation) (acc : List (String × Derivation)),
      (acc.map Prod.fst).Nodup →
      ((aff.foldl (fun a d => dictInsert d.name d a) acc).map Prod.fst).Nodup := by
  intro aff
  induction aff with
  | nil => intro acc h; simpa using h
  | cons d rest ih =>
    intro acc h
    exact ih _ (nodup_keys_dictInsert h)

theorem foldl_dictInsert_mem :
    ∀ (aff : List Derivation) (acc : List (String × Derivation))
      (p : String × Derivation),
      p ∈ aff.foldl (fun a d => dictInsert d.name d a) acc →
      p ∈ acc ∨ p.2 ∈ aff := by
  intro aff
  induction aff with
  | nil => intro acc p h; exact Or.inl (by simpa using h)
  | cons d rest ih =>
    intro acc p h
    rcases ih _ p h with hmem | hmem
    · rcases mem_dictInsert hmem with rfl | hacc
      · exact Or.inr (by simp)
      · exact Or.inl hacc
    · exact Or.inr (List.mem_cons_of_mem _ hmem)

theorem foldl_dictInsert_names :
    ∀ (aff : List Derivation) (acc : List (String × Derivation)),
      (∀ p ∈ acc, (Prod.snd p).name = p.1) →
      ∀ p ∈ aff.foldl (fun a d => dictInsert d.name d a) acc,
        (Prod.snd p).name = p.1 := by
  intro aff
  induction aff with
  | nil => intro acc h; simpa using h
  | cons d rest ih =>
    intro acc h
    exact ih _ (names_dictInsert rfl h)

theorem mem_keys_foldl_mono :
    ∀ (aff : List Derivation) (acc : List (String × Derivation)) (k : String),
      k ∈ acc.map Prod.fst →
      k ∈ (aff.foldl (fun a d => dictInsert d.name d a) acc).map Prod.fst := by
  intro aff
  induction aff with
  | nil => intro acc k h; simpa using h
  | cons d rest ih =>
    intro acc k h
    exact ih _ k (mem_keys_dictInsert.mpr (Or.inr h))

theorem mem_keys_foldl_of_mem :
    ∀ (aff : List Derivation) (acc : List (String × Derivation))
      (d : Derivation), d ∈ aff →
      d.name ∈ (aff.foldl (fun a d => dictInsert d.name d a) acc).map Prod.fst := by
  intro aff
  induction aff with
  | nil => simp
  | cons x rest ih =>
    intro acc d hd
    rcases List.mem_cons.mp hd with rfl | hmem
    · exact mem_keys_foldl_mono rest _ d.name
        (mem_keys_dictInsert.mpr (Or.inl rfl))
    · exact ih _ d hmem

theorem run_ok {checkE : Derivation → Except RtError Derivation}
    {derivs out : List Derivation} (h : run checkE derivs = .ok out) :
    ∃ aff, collectAffected checkE derivs = .ok aff ∧
      out = dictValues (dictOfNames aff) := by
  unfold run at h
  cases hc : collectAffected checkE derivs with
  | error e => rw [hc] at h; simp at h
  | ok aff =>
    rw [hc] at h
    simp only [Except.ok.injEq] at h
    exact ⟨aff, rfl, h.symm⟩

/-- C2: for every collection of derivations produced by a store, the result
of `run(nvd, store)` contains at most one derivation per `name` (the names
of the result are pairwise distinct), every returned derivation is one of
the affected ones, and every affected derivation's `name` has exactly one
representative in the result; the choice is a function of the store's
iteration order, hence deterministic. -/
theorem C2_run_dedup {checkE : Derivation → Except RtError Derivation}
    {derivs out : List Derivation} (h : run checkE derivs = .ok out) :
    ((out.map Derivation.name).Nodup) ∧
    ∃ aff, collectAffected checkE derivs = .ok aff ∧
      (∀ d ∈ out, d ∈ aff) ∧
      (∀ d ∈ aff, ∃ d' ∈ out, d'.name = d.name) := by
  obtain ⟨aff, hc, hout⟩ := run_ok h
  subst hout
  have hnames : ∀ p ∈ dictOfNames aff, (Prod.snd p).name = p.1 :=
    foldl_dictInsert_names aff [] (by simp)
  refine ⟨?_, aff, hc, ?_, ?_⟩
  · have : (dictValues (dictOfNames aff)).map Derivation.name
        = (dictOfNames aff).map Prod.fst := by
      simp only [dictValues, List.map_map]
      exact List.map_congr_left fun p hp => hnames p hp
    rw [this]
    exact foldl_dictInsert_nodup aff [] (by simp)
  · intro d hd
    simp only [dictValues, List.mem_map] at hd
    obtain ⟨p, hp, rfl⟩ := hd
    rcases foldl_dictInsert_mem aff [] p hp with hmem | hmem
    · simp at hmem
    · exact hmem
  · intro d hd
    have hk : d.name ∈ (dictOfNames aff).map Prod.fst :=
      mem_keys_foldl_of_mem aff [] d hd
    simp only [List.mem_map] at hk
    obtain ⟨p, hp, hfst⟩ := hk
    refine ⟨p.2, ?_, ?_⟩
    · simp only [dictValues, List.mem_map]
      exact ⟨p, hp, rfl⟩
    · rw [hnames p hp, hfst]

/-- Witness for C2 at a concrete store: `dA` and `dB` share a `name`, only
one representative survives. -/
theorem C2_run_dedup_witness :
    (([dB].map Derivation.name).Nodup) ∧
    ∃ aff, collectAffected (fun d => .ok d) [dA, dB, dC] = .ok aff ∧
      (∀ d ∈ [dB], d ∈ aff) ∧
      (∀ d ∈ aff, ∃ d' ∈ [dB], d'.name = d.name) :=
  C2_run_dedup (by rfl)

/-- C3: `run` checks every derivation of the store (each check succeeds on
a completed run); a derivation appears in the result only if it is affected
after checking, and no affected derivation's `name` is missing from the
result. -/
theorem C3_run_complete {checkE : Derivation → Except RtError Derivation}
    {derivs out : List Derivation} (h : run checkE derivs = .ok out) :
    (∀ s ∈ derivs, ∃ d', checkE s = .ok d') ∧
    (∀ d ∈ out, d.is_affected = true ∧ ∃ s ∈ derivs, checkE s = .ok d) ∧
    (∀ s ∈ derivs, ∀ d', checkE s = .ok d' → d'.is_affected = true →
      ∃ r ∈ out, r.name = d'.name) := by
  obtain ⟨aff, hc, hout⟩ := run_ok h
  have hnames : ∀ p ∈ dictOfNames aff, (Prod.snd p).name = p.1 :=
    foldl_dictInsert_names aff [] (by simp)
  refine ⟨collectAffected_checks hc, ?_, ?_⟩
  · intro d hd
    subst hout
    simp only [dictValues, List.mem_map] at hd
    obtain ⟨p, hp, rfl⟩ := hd
    rcases foldl_dictInsert_mem aff [] p hp with hmem | hmem
    · simp at hmem
    · exact mem_collectAffected hc p.2 hmem
  · intro s hs d' hcs ha
    have hmem : d' ∈ aff := collectAffected_complete hc s hs d' hcs ha
    have hk : d'.name ∈ (dictOfNames aff).map Prod.fst :=
      mem_keys_foldl_of_mem aff [] d' hmem
    simp only [List.mem_map] at hk
    obtain ⟨p, hp, hfst⟩ := hk
    subst hout
    refine ⟨p.2, ?_, ?_⟩
    · simp only [dictValues, List.mem_map]
      exact ⟨p, hp, rfl⟩
    · rw [hnames p hp, hfst]

/-- Witness for C3 at a concrete store. -/
theorem C3_run_complete_witness :
    (∀ s ∈ [dA, dC], ∃ d', (fun d => (.ok d : Except RtError Derivation)) s = .ok d') ∧
    (∀ d ∈ [dA], d.is_affected = true ∧
      ∃ s ∈ [dA, dC], (fun d => (.ok d : Except RtError Derivation)) s = .ok d) ∧
    (∀ s ∈ [dA, dC], ∀ d',
      (fun d => (.ok d : Except RtError Derivation)) s = .ok d' →
      d'.is_affected = true → ∃ r ∈ [dA], r.name = d'.name) :=
  C3_run_complete (by rfl)

theorem sortStrings_perm (l : List String) : (sortStrings l).Perm l :=
  List.mergeSort_perm l _

theorem sortStrings_sorted (l : List String) :
    (sortStrings l).Pairwise (fun a b => a ≤ b) := by
  have h := @List.sorted_mergeSort String
      (fun a b : String => decide (a ≤ b))
      (fun a b c hab hbc => by
        simp only [decide_eq_true_eq] at *
        exact le_trans hab hbc)
      (fun a b => by
        simp only [Bool.or_eq_true, decide_eq_true_eq]
        exact le_total a b)
      l
  exact h.imp fun hab => of_decide_eq_true hab

theorem sortByPname_perm (l : List Derivation) : (sortByPname l).Perm l :=
  List.mergeSort_perm l _

theorem sortByPname_sorted (l : List Derivation) :
    (sortByPname l).Pairwise (fun a b => a.pname ≤ b.pname) := by
  have h := @List.sorted_mergeSort Derivation
      (fun a b : Derivation => decide (a.pname ≤ b.pname))
      (fun a b c hab hbc => by
        simp only [decide_eq_true_eq] at *
        exact le_trans hab hbc)
      (fun a b => by
        simp only [Bool.or_eq_true, decide_eq_true_eq]
        exact le_total a.pname b.pname)
      l
  exact h.imp fun hab => of_decide_eq_true hab

/-- C4: in JSON mode (without `--show-whitelisted`), the structured output
has exactly one record per derivation — the records are a permutation of
the derivations mapped to records carrying `name`, `pname`, `version`, the
store path and the sorted vulnerability ids — the records are ordered by
`pname`, and each record's vulnerability list is sorted. -/
theorem C4_output_json (derivs : List Derivation) :
    ∃ recs, output_json derivs false = .ok recs ∧
      recs.Perm (derivs.map (fun d =>
        ({ name := d.name
           pname := d.pname
           version := d.version
           derivation := d.store_path
           affected_by := sortStrings d.affected_by } : Record))) ∧
      recs.Pairwise (fun r₁ r₂ => r₁.pname ≤ r₂.pname) ∧
      (∀ r ∈ recs, r.affected_by.Pairwise (fun a b => a ≤ b)) := by
  refine ⟨_, rfl, ?_, ?_, ?_⟩
  · exact List.Perm.map _ (sortByPname_perm derivs)
  · rw [List.pairwise_map]
    exact sortByPname_sorted derivs
  · intro r hr
    simp only [List.mem_map] at hr
    obtain ⟨d, _, rfl⟩ := hr
    exact sortStrings_sorted d.affected_by

/-- Witness for C4 at a concrete derivation list. -/
theorem C4_output_json_witness :
    ∃ recs, output_json [dA, dC] false = .ok recs ∧
      recs.Perm ([dA, dC].map (fun d =>
        ({ name := d.name
           pname := d.pname
           version := d.version
           derivation := d.store_path
           affected_by := sortStrings d.affected_by } : Record))) ∧
      recs.Pairwise (fun r₁ r₂ => r₁.pname ≤ r₂.pname) ∧
      (∀ r ∈ recs, r.affected_by.Pairwise (fun a b => a ≤ b)) :=
  C4_output_json [dA, dC]

theorem guardFalse {S : Type} (o : Opts S)
    (ht : o.gc_roots = true ∨ o.system = true ∨ o.path ≠ []) :
    (!o.gc_roots && !o.system && o.path.isEmpty) = false := by
  rcases ht with h | h | h
  · simp [h]
  · simp [h]
  · cases hp : o.path with
    | nil => exact absurd hp h
    | cons a l => simp [hp]

theorem mainModel_pipeline {W S : Type} (env : Env W S) (o : Opts S)
    (hv : o.version = false)
    (ht : o.gc_roots = true ∨ o.system = true ∨ o.path ≠ [])
    {wl : W} {derivs scanned affected : List Derivation} {masked : List Masked}
    {jsonOut : Option (List Record)}
    (h1 : loadAll env o.whitelistSources = .ok wl)
    (h2 : env.storeDerivs = .ok derivs)
    (h3 : env.nvdUpdate = .ok ())
    (h4 : run env.checkDrv derivs = .ok scanned)
    (h5 : env.filterWl wl scanned = .ok (affected, masked))
    (h6 : outputStep o affected o.show_whitelisted = .ok jsonOut) :
    mainModel env o = .exited
      { exitCode := exitFor affected masked
        whitelistLoaded := true
        storePopulated := true
        nvdUpdated := true
        jsonRecords := jsonOut
        humanShown := !o.json
        addFromCalls := if o.write_whitelist then affected else []
        writtenWhitelist := if o.write_whitelist then
            some (env.serializeWl (affected.foldl env.addFrom wl)) else none } := by
  have hg := guardFalse o ht
  unfold mainModel
  simp only [hv, hg, Bool.false_eq_true, if_false, h1, h2, h3, h4, h5, h6]
  by_cases hw : o.write_whitelist <;> simp [hw]

/-- C1: on every run that completes the scan without an exception, the exit
code is 2 when the affected (unsuppressed) set is non-empty, otherwise 1
when the masked (suppressed) set is non-empty, otherwise 0 — the affected
check taking precedence. -/
theorem C1_exit_codes {W S : Type} (env : Env W S) (o : Opts S)
    (hv : o.version = false)
    (ht : o.gc_roots = true ∨ o.system = true ∨ o.path ≠ [])
    {wl : W} {derivs scanned affected : List Derivation} {masked : List Masked}
    {jsonOut : Option (List Record)}
    (h1 : loadAll env o.whitelistSources = .ok wl)
    (h2 : env.storeDerivs = .ok derivs)
    (h3 : env.nvdUpdate = .ok ())
    (h4 : run env.checkDrv derivs = .ok scanned)
    (h5 : env.filterWl wl scanned = .ok (affected, masked))
    (h6 : outputStep o affected o.show_whitelisted = .ok jsonOut) :
    ∃ oc, mainModel env o = .exited oc ∧
      oc.exitCode =
        (if affected ≠ [] then 2 else if masked ≠ [] then 1 else 0) ∧
      oc.criticalLogged = none := by
  refine ⟨_, mainModel_pipeline env o hv ht h1 h2 h3 h4 h5 h6, ?_, rfl⟩
  simp only [exitFor]
  rcases affected with _ | ⟨a, as⟩ <;> rcases masked with _ | ⟨m, ms⟩ <;> simp

/-- Witness for C1: a concrete successful scan with one affected
derivation exits with code 2. -/
theorem C1_exit_codes_witness :
    ∃ oc, mainModel natEnv optsScan = .exited oc ∧
      oc.exitCode =
        (if ([dA] : List Derivation) ≠ [] then 2
         else if ([] : List Masked) ≠ [] then 1 else 0) ∧
      oc.criticalLogged = none :=
  C1_exit_codes natEnv optsScan rfl (Or.inr (Or.inl rfl))
    rfl rfl rfl rfl rfl rfl

theorem mainModel_caught {W S : Type} (env : Env W S) (o : Opts S)
    (hv : o.version = false)
    (ht : o.gc_roots = true ∨ o.system = true ∨ o.path ≠ [])
    (hfail : ¬ scanSucceeds env o) :
    ∃ oc msg, mainModel env o = .exited oc ∧ oc.exitCode = 2 ∧
      oc.criticalLogged = some msg ∧ oc.jsonRecords = none := by
  have hg := guardFalse o ht
  cases hL : loadAll env o.whitelistSources with
    | error e =>
      refine ⟨caught e false false false, e, ?_, rfl, rfl, rfl⟩
      unfold mainModel
      simp only [hv, hg, Bool.false_eq_true, if_false, hL]
    | ok wl =>
      cases h2 : env.storeDerivs with
      | error e =>
        refine ⟨caught e true false false, e, ?_, rfl, rfl, rfl⟩
        unfold mainModel
        simp only [hv, hg, Bool.false_eq_true, if_false, hL, h2]
      | ok derivs =>
        cases h3 : env.nvdUpdate with
        | error e =>
          refine ⟨caught e true true false, e, ?_, rfl, rfl, rfl⟩
          unfold mainModel
          simp only [hv, hg, Bool.false_eq_true, if_false, hL, h2, h3]
        | ok u =>
          cases u
          cases h4 : run env.checkDrv derivs with
          | error e =>
            refine ⟨caught e true true true, e, ?_, rfl, rfl, rfl⟩
            unfold mainModel
            simp only [hv, hg, Bool.false_eq_true, if_false, hL, h2, h3, h4]
          | ok scanned =>
            cases h5 : env.filterWl wl scanned with
            | error e =>
              refine ⟨caught e true true true, e, ?_, rfl, rfl, rfl⟩
              unfold mainModel
              simp only [hv, hg, Bool.false_eq_true, if_false, hL, h2, h3,
                h4, h5]
            | ok p =>
              obtain ⟨affected, masked⟩ := p
              cases h6 : outputStep o affected o.show_whitelisted with
              | error e =>
                refine ⟨caught e true true true, e, ?_, rfl, rfl, rfl⟩
                unfold mainModel
                simp only [hv, hg, Bool.false_eq_true, if_false, hL, h2, h3,
                  h4, h5, h6]
              | ok jsonOut =>
                exact absurd
                  ⟨wl, derivs, scanned, affected, masked, jsonOut,
                    hL, h2, h3, h4, h5, h6⟩ hfail
/-- C5: whenever a `RuntimeError` is raised anywhere inside the scan
pipeline (whitelist loading, store population, NVD update, matching,
filtering, or output), the handler catches it — no stack trace escapes to
the user — the error is logged at critical severity, and the process exits
with the non-zero code 2. -/
theorem C5_runtime_error {W S : Type} (env : Env W S) (o : Opts S)
    (hv : o.version = false)
    (ht : o.gc_roots = true ∨ o.system = true ∨ o.path ≠ [])
    (hfail : ¬ scanSucceeds env o) :
    (¬ ∃ e, mainModel env o = .uncaught e) ∧
    ∃ oc msg, mainModel env o = .exited oc ∧ oc.exitCode = 2 ∧
      oc.criticalLogged = some msg := by
  obtain ⟨oc, msg, hm, hcode, hlog, -⟩ := mainModel_caught env o hv ht hfail
  refine ⟨?_, oc, msg, hm, hcode, hlog⟩
  rintro ⟨e, he⟩
  rw [hm] at he
  cases he

/-- Witness for C5: a failing store population is caught and mapped to
exit code 2 with a critical log. -/
theorem C5_runtime_error_witness :
    (¬ ∃ e, mainModel envStoreFail optsScan = .uncaught e) ∧
    ∃ oc msg, mainModel envStoreFail optsScan = .exited oc ∧
      oc.exitCode = 2 ∧ oc.criticalLogged = some msg :=
  C5_runtime_error envStoreFail optsScan rfl (Or.inr (Or.inl rfl))
    (by
      rintro ⟨wl, derivs, scanned, affected, masked, jsonOut, _, h2, _⟩
      simp [envStoreFail, natEnv] at h2)

/-- C6: with no scan target (no gc-roots flag, no system flag, empty path
list) and no version flag, the program shows the usage text and exits with
code 3 before loading whitelists, populating the store or updating the
feed. -/
theorem C6_no_target {W S : Type} (env : Env W S) (o : Opts S)
    (hv : o.version = false) (hg : o.gc_roots = false) (hs : o.system = false)
    (hp : o.path = []) :
    mainModel env o = .exited
      { exitCode := 3
        versionShown := false
        usageShown := true
        whitelistLoaded := false
        storePopulated := false
        nvdUpdated := false
        jsonRecords := none
        humanShown := false
        addFromCalls := []
        writtenWhitelist := none
        criticalLogged := none } := by
  unfold mainModel
  simp [hv, hg, hs, hp]

/-- Witness for C6 at a concrete invocation without targets. -/
theorem C6_no_target_witness :
    mainModel natEnv optsNoTarget = .exited
      { exitCode := 3
        versionShown := false
        usageShown := true
        whitelistLoaded := false
        storePopulated := false
        nvdUpdated := false
        jsonRecords := none
        humanShown := false
        addFromCalls := []
        writtenWhitelist := none
        criticalLogged := none } :=
  C6_no_target natEnv optsNoTarget rfl rfl rfl rfl

/-- C7: when the write-whitelist option is given on a successful run,
`add_from` is called exactly once per affected derivation (in order, and
for no other derivation, in particular for no masked finding), and the
serialization of the resulting whitelist is written to the target file. -/
theorem C7_write_whitelist {W S : Type} (env : Env W S) (o : Opts S)
    (hv : o.version = false)
    (ht : o.gc_roots = true ∨ o.system = true ∨ o.path ≠ [])
    {wl : W} {derivs scanned affected : List Derivation} {masked : List Masked}
    {jsonOut : Option (List Record)}
    (h1 : loadAll env o.whitelistSources = .ok wl)
    (h2 : env.storeDerivs = .ok derivs)
    (h3 : env.nvdUpdate = .ok ())
    (h4 : run env.checkDrv derivs = .ok scanned)
    (h5 : env.filterWl wl scanned = .ok (affected, masked))
    (h6 : outputStep o affected o.show_whitelisted = .ok jsonOut)
    (hw : o.write_whitelist = true) :
    ∃ oc, mainModel env o = .exited oc ∧
      oc.addFromCalls = affected ∧
      oc.writtenWhitelist =
        some (env.serializeWl (affected.foldl env.addFrom wl)) := by
  refine ⟨_, mainModel_pipeline env o hv ht h1 h2 h3 h4 h5 h6, ?_, ?_⟩ <;>
    simp [hw]

/-- Witness for C7: writing the whitelist on a concrete successful run. -/
theorem C7_write_whitelist_witness :
    ∃ oc, mainModel natEnv optsWrite = .exited oc ∧
      oc.addFromCalls = [dA] ∧
      oc.writtenWhitelist =
        some (natEnv.serializeWl ([dA].foldl natEnv.addFrom 0)) :=
  C7_write_whitelist natEnv optsWrite rfl (Or.inr (Or.inl rfl))
    rfl rfl rfl rfl rfl rfl rfl

/-- C9: requesting JSON output together with the show-whitelisted option
never emits a JSON record and always terminates through the RuntimeError
handler with exit code 2, whatever the scan results are. -/
theorem C9_json_show_whitelisted {W S : Type} (env : Env W S) (o : Opts S)
    (hv : o.version = false)
    (ht : o.gc_roots = true ∨ o.system = true ∨ o.path ≠ [])
    (hj : o.json = true) (hs : o.show_whitelisted = true) :
    ∃ oc, mainModel env o = .exited oc ∧ oc.exitCode = 2 ∧
      oc.jsonRecords = none ∧ oc.criticalLogged.isSome = true := by
  have hfail : ¬ scanSucceeds env o := by
    rintro ⟨wl, derivs, scanned, affected, masked, jsonOut, _, _, _, _, _, h6⟩
    rw [hs] at h6
    simp only [outputStep, hj, if_true, output_json] at h6
    simp at h6
  obtain ⟨oc, msg, hm, hcode, hlog, hjson⟩ := mainModel_caught env o hv ht hfail
  exact ⟨oc, hm, hcode, hjson, by rw [hlog]; rfl⟩

/-- Witness for C9: JSON mode plus show-whitelisted on an otherwise
successful scan yields no records and exit code 2. -/
theorem C9_json_show_whitelisted_witness :
    ∃ oc, mainModel natEnv optsJsonShow = .exited oc ∧ oc.exitCode = 2 ∧
      oc.jsonRecords = none ∧ oc.criticalLogged.isSome = true :=
  C9_json_show_whitelisted natEnv optsJsonShow rfl (Or.inr (Or.inl rfl))
    rfl rfl

/-- C10: the version flag prints the package version and exits with code 0
immediately — before the no-scan-target check and before any whitelist
loading, store population, or feed update — whatever the other options
are. -/
theorem C10_version_flag {W S : Type} (env : Env W S) (o : Opts S)
    (hv : o.version = true) :
    mainModel env o = .exited
      { exitCode := 0
        versionShown := true
        usageShown := false
        whitelistLoaded := false
        storePopulated := false
        nvdUpdated := false
        jsonRecords := none
        humanShown := false
        addFromCalls := []
        writtenWhitelist := none
        criticalLogged := none } := by
  unfold mainModel
  simp [hv]

/-- Witness for C10: the version flag exits with code 0 even though no
scan target is specified. -/
theorem C10_version_flag_witness :
    mainModel natEnv optsVersion = .exited
      { exitCode := 0
        versionShown := true
        usageShown := false
        whitelistLoaded := false
        storePopulated := false
        nvdUpdated := false
        jsonRecords := none
        humanShown := false
        addFromCalls := []
        writtenWhitelist := none
        criticalLogged := none } :=
  C10_version_flag natEnv optsVersion rfl

theorem cmpNatList_refl : ∀ l, cmpNatList l l = .eq := by
  intro l
  induction l with
  | nil => rfl
  | cons a as ih =>
    simp [cmpNatList, Nat.compare_eq_eq.mpr rfl, ih]

theorem cmpNatList_eq : ∀ a b : List Nat, cmpNatList a b = .eq ↔ a = b := by
  intro a
  induction a with
  | nil =>
    intro b
    cases b <;> simp [cmpNatList]
  | cons x xs ih =>
    intro b
    cases b with
    | nil => simp [cmpNatList]
    | cons y ys =>
      cases hc : compare x y with
      | lt =>
        have hne : x ≠ y := Nat.ne_of_lt (Nat.compare_eq_lt.mp hc)
        simp [cmpNatList, hc, hne]
      | gt =>
        have hne : x ≠ y := (Nat.ne_of_lt (Nat.compare_eq_gt.mp hc)).symm
        simp [cmpNatList, hc, hne]
      | eq =>
        have hxy : x = y := Nat.compare_eq_eq.mp hc
        subst hxy
        simp [cmpNatList, hc, ih]

theorem cmpNatList_swap : ∀ a b : List Nat, cmpNatList a b = (cmpNatList b a).swap := by
  intro a
  induction a with
  | nil =>
    intro b
    cases b <;> rfl
  | cons x xs ih =>
    intro b
    cases b with
    | nil => rfl
    | cons y ys =>
      have hsw : compare x y = (compare y x).swap := (Nat.compare_swap y x).symm
      simp only [cmpNatList, hsw]
      cases hc : compare y x <;> simp [Ordering.swap, ih ys]

theorem cmpNatList_trans_lt :
    ∀ a b c : List Nat, cmpNatList a b = .lt → cmpNatList b c = .lt →
      cmpNatList a c = .lt := by
  intro a
  induction a with
  | nil =>
    intro b c h1 h2
    cases b with
    | nil => simp [cmpNatList] at h1
    | cons y ys =>
      cases c with
      | nil => simp [cmpNatList] at h2
      | cons z zs => simp [cmpNatList]
  | cons x xs ih =>
    intro b c h1 h2
    cases b with
    | nil => simp [cmpNatList] at h1
    | cons y ys =>
      cases c with
      | nil => simp [cmpNatList] at h2
      | cons z zs =>
        simp only [cmpNatList] at h1 h2 ⊢
        cases hxy : compare x y with
        | gt => rw [hxy] at h1; exact absurd h1 (by simp)
        | lt =>
          cases hyz : compare y z with
          | gt => rw [hyz] at h2; exact absurd h2 (by simp)
          | lt =>
            have hxz : compare x z = .lt :=
              Nat.compare_eq_lt.mpr
                (Nat.lt_trans (Nat.compare_eq_lt.mp hxy)
                  (Nat.compare_eq_lt.mp hyz))
            simp [hxz]
          | eq =>
            have hyz' : y = z := Nat.compare_eq_eq.mp hyz
            have hxz : compare x z = .lt := by rw [← hyz']; exact hxy
            simp [hxz]
        | eq =>
          rw [hxy] at h1
          have hxy' : x = y := Nat.compare_eq_eq.mp hxy
          cases hyz : compare y z with
          | gt => rw [hyz] at h2; exact absurd h2 (by simp)
          | lt =>
            have hxz : compare x z = .lt := by rw [hxy']; exact hyz
            simp [hxz]
          | eq =>
            rw [hyz] at h2
            have hxz : compare x z = .eq := by rw [hxy']; exact hyz
            simp only [hxz]
            exact ih ys zs h1 h2

theorem VComp.cmp_refl (x : VComp) : x.cmp x = .eq := by
  cases x with
  | num n => simpa [VComp.cmp] using Nat.compare_eq_eq.mpr rfl
  | alpha s => simpa [VComp.cmp] using cmpNatList_refl s

theorem VComp.cmp_eq_iff {x y : VComp} : x.cmp y = .eq ↔ x = y := by
  cases x <;> cases y <;>
    simp [VComp.cmp, Nat.compare_eq_eq, cmpNatList_eq]

theorem VComp.cmp_swap (x y : VComp) : x.cmp y = (y.cmp x).swap := by
  cases x with
  | num a =>
    cases y with
    | num b => exact (Nat.compare_swap b a).symm
    | alpha s => rfl
  | alpha s =>
    cases y with
    | num b => rfl
    | alpha t => exact cmpNatList_swap s t

theorem VComp.cmp_trans_lt {x y z : VComp} (h1 : x.cmp y = .lt)
    (h2 : y.cmp z = .lt) : x.cmp z = .lt := by
  cases x with
  | num a =>
    cases y with
    | num b =>
      cases z with
      | num c =>
        simp only [VComp.cmp, Nat.compare_eq_lt] at h1 h2 ⊢
        omega
      | alpha u => exact absurd h2 (by simp [VComp.cmp])
    | alpha t => exact absurd h1 (by simp [VComp.cmp])
  | alpha s =>
    cases y with
    | num b =>
      cases z with
      | num c => simp [VComp.cmp]
      | alpha u => exact absurd h2 (by simp [VComp.cmp])
    | alpha t =>
      cases z with
      | num c => simp [VComp.cmp]
      | alpha u =>
        simp only [VComp.cmp] at h1 h2 ⊢
        exact cmpNatList_trans_lt _ _ _ h1 h2

theorem VComp.cmp_eq_left {x y : VComp} (h : x.cmp y = .eq) (z : VComp) :
    x.cmp z = y.cmp z := by
  rw [VComp.cmp_eq_iff.mp h]

theorem cmpComponents_unfold (a b : List VComp) :
    cmpComponents a b =
      (match (hd0 a).cmp (hd0 b) with
       | .eq => cmpComponents (tl0 a) (tl0 b)
       | o => o) := by
  match a, b with
  | [], [] =>
    have h0 : (hd0 []).cmp (hd0 []) = Ordering.eq := VComp.cmp_refl _
    simp [h0, cmpComponents, cmpNil, tl0]
  | [], y :: ys => rfl
  | x :: xs, [] => rfl
  | x :: xs, y :: ys => rfl

theorem tl0_length_le (a : List VComp) : (tl0 a).length ≤ a.length := by
  cases a <;> simp [tl0]

theorem tl0_length_lt (a : List VComp) (h : a ≠ []) :
    (tl0 a).length < a.length := by
  cases a with
  | nil => exact absurd rfl h
  | cons x xs => simp [tl0]

theorem cmpComponents_refl : ∀ a, cmpComponents a a = .eq := by
  intro a
  induction a with
  | nil => rfl
  | cons x xs ih =>
    simp [cmpComponents, VComp.cmp_refl, ih]

theorem cmpComponents_swap_aux :
    ∀ n, ∀ a b : List VComp, a.length + b.length ≤ n →
      cmpComponents a b = (cmpComponents b a).swap := by
  intro n
  induction n with
  | zero =>
    intro a b h
    have ha : a = [] := List.length_eq_zero.mp (by omega)
    have hb : b = [] := List.length_eq_zero.mp (by omega)
    subst ha
    subst hb
    rfl
  | succ n ih =>
    intro a b h
    by_cases hab : a = [] ∧ b = []
    · obtain ⟨rfl, rfl⟩ := hab
      rfl
    · have hm : (tl0 a).length + (tl0 b).length ≤ n := by
        rcases not_and_or.mp hab with h' | h'
        · have := tl0_length_lt a h'
          have := tl0_length_le b
          omega
        · have := tl0_length_le a
          have := tl0_length_lt b h'
          omega
      rw [cmpComponents_unfold a b, cmpComponents_unfold b a,
        VComp.cmp_swap (hd0 a) (hd0 b)]
      cases hc : (hd0 b).cmp (hd0 a) with
      | lt => rfl
      | gt => rfl
      | eq =>
        simp only [Ordering.swap]
        exact ih (tl0 a) (tl0 b) hm

theorem cmpComponents_trans_aux :
    ∀ n, ∀ a b c : List VComp, a.length + b.length + c.length ≤ n →
      cmpComponents a b = .lt → cmpComponents b c = .lt →
      cmpComponents a c = .lt := by
  intro n
  induction n with
  | zero =>
    intro a b c h h1 h2
    have ha : a = [] := List.length_eq_zero.mp (by omega)
    have hb : b = [] := List.length_eq_zero.mp (by omega)
    subst ha
    subst hb
    exact absurd h1 (by simp [cmpComponents, cmpNil])
  | succ n ih =>
    intro a b c h h1 h2
    by_cases hab : a = [] ∧ b = []
    · obtain ⟨rfl, rfl⟩ := hab
      exact absurd h1 (by simp [cmpComponents, cmpNil])
    · by_cases hbc : b = [] ∧ c = []
      · obtain ⟨rfl, rfl⟩ := hbc
        exact absurd h2 (by simp [cmpComponents, cmpNil])
      · have hm : (tl0 a).length + (tl0 b).length + (tl0 c).length ≤ n := by
          rcases not_and_or.mp hab with h' | h'
          · have := tl0_length_lt a h'
            have := tl0_length_le b
            have := tl0_length_le c
            omega
          · have := tl0_length_le a
            have := tl0_length_lt b h'
            have := tl0_length_le c
            omega
        rw [cmpComponents_unfold a b] at h1
        rw [cmpComponents_unfold b c] at h2
        rw [cmpComponents_unfold a c]
        cases hxy : (hd0 a).cmp (hd0 b) with
        | gt => rw [hxy] at h1; exact absurd h1 (by simp)
        | lt =>
          cases hyz : (hd0 b).cmp (hd0 c) with
          | gt => rw [hyz] at h2; exact absurd h2 (by simp)
          | lt =>
            have hxz : (hd0 a).cmp (hd0 c) = .lt :=
              VComp.cmp_trans_lt hxy hyz
            simp [hxz]
          | eq =>
            have hxz : (hd0 a).cmp (hd0 c) = .lt := by
              rw [← VComp.cmp_eq_iff.mp hyz]
              exact hxy
            simp [hxz]
        | eq =>
          rw [hxy] at h1
          cases hyz : (hd0 b).cmp (hd0 c) with
          | gt => rw [hyz] at h2; exact absurd h2 (by simp)
          | lt =>
            have hxz : (hd0 a).cmp (hd0 c) = .lt := by
              rw [VComp.cmp_eq_iff.mp hxy]
              exact hyz
            simp [hxz]
          | eq =>
            rw [hyz] at h2
            have hxz : (hd0 a).cmp (hd0 c) = .eq := by
              rw [VComp.cmp_eq_iff.mp hxy]
              exact hyz
            simp only [hxz]
            exact ih (tl0 a) (tl0 b) (tl0 c) hm h1 h2

theorem cmpComponents_congr_aux :
    ∀ n, ∀ a b : List VComp, a.length + b.length ≤ n →
      cmpComponents a b = .eq →
      ∀ c, cmpComponents a c = cmpComponents b c := by
  intro n
  induction n with
  | zero =>
    intro a b h _ c
    have ha : a = [] := List.length_eq_zero.mp (by omega)
    have hb : b = [] := List.length_eq_zero.mp (by omega)
    subst ha
    subst hb
    rfl
  | succ n ih =>
    intro a b h heq c
    by_cases hab : a = [] ∧ b = []
    · obtain ⟨rfl, rfl⟩ := hab
      rfl
    · have hm : (tl0 a).length + (tl0 b).length ≤ n := by
        rcases not_and_or.mp hab with h' | h'
        · have := tl0_length_lt a h'
          have := tl0_length_le b
          omega
        · have := tl0_length_le a
          have := tl0_length_lt b h'
          omega
      rw [cmpComponents_unfold a b] at heq
      cases hxy : (hd0 a).cmp (hd0 b) with
      | lt => rw [hxy] at heq; exact absurd heq (by simp)
      | gt => rw [hxy] at heq; exact absurd heq (by simp)
      | eq =>
        rw [hxy] at heq
        rw [cmpComponents_unfold a c, cmpComponents_unfold b c,
          VComp.cmp_eq_left hxy (hd0 c)]
        cases hyz : (hd0 b).cmp (hd0 c) with
        | lt => rfl
        | gt => rfl
        | eq => exact ih (tl0 a) (tl0 b) hm heq (tl0 c)

theorem cmpComponents_swap (a b : List VComp) :
    cmpComponents a b = (cmpComponents b a).swap :=
  cmpComponents_swap_aux (a.length + b.length) a b (le_refl _)

theorem cmpComponents_trans {a b c : List VComp}
    (h1 : cmpComponents a b = .lt) (h2 : cmpComponents b c = .lt) :
    cmpComponents a c = .lt :=
  cmpComponents_trans_aux (a.length + b.length + c.length) a b c (le_refl _)
    h1 h2

theorem cmpComponents_congr {a b : List VComp}
    (h : cmpComponents a b = .eq) (c : List VComp) :
    cmpComponents a c = cmpComponents b c :=
  cmpComponents_congr_aux (a.length + b.length) a b (le_refl _) h c

/-- C8: the spec-modelled version comparison is an equivalence-compatible
total order: `compare v v = EQ` for every version string, the order swaps
under argument exchange, `LT` is transitive, comparison respects the
equivalence (`EQ` versions compare identically against any third version),
"1.2" equals "1.2.0" (missing trailing numeric component is zero), and the
pre-release "1.2-rc1" is less than the release "1.2". -/
theorem C8_version_order :
    (∀ v, compareVersion v v = .eq) ∧
    (∀ a b, compareVersion a b = (compareVersion b a).swap) ∧
    (∀ a b c, compareVersion a b = .lt → compareVersion b c = .lt →
      compareVersion a c = .lt) ∧
    (∀ a b c, compareVersion a b = .eq →
      compareVersion a c = compareVersion b c) ∧
    compareVersion "1.2" "1.2.0" = .eq ∧
    compareVersion "1.2-rc1" "1.2" = .lt := by
  refine ⟨fun v => cmpComponents_refl _,
    fun a b => cmpComponents_swap _ _,
    fun a b c h1 h2 => cmpComponents_trans h1 h2,
    fun a b c h => cmpComponents_congr h _,
    by rfl, by rfl⟩

/-- Witness for C8: transitivity applied at concrete version strings. -/
theorem C8_version_order_witness : compareVersion "1.0" "2.0" = .lt :=
  C8_version_order.2.2.1 "1.0" "1.5" "2.0" (by rfl) (by rfl)

end Vulnix
